import Mathlib

/-!
Verification of the Go-Quote repository: a shallow embedding of the quote
store (`store.go`, the `QuoteStore` revision) and the command dispatcher
(`commands.go` revision `CommandHandler.Handle`, plus the superseded
monolithic `main.go` handlers) together with proofs about the frozen claims.

Strings are modelled as `List Char`.  SQL state is modelled as the list of
rows of the single `quotes` table in B-tree (rowid = id) order, plus the
AUTOINCREMENT counter.  Ambient effects are passed explicitly: the clock as
the `created_at` string the database would store, the RNG as a natural
number draw.
-/

/-- Shorthand turning a Lean string literal into the `List Char` model used
throughout. -/
def str (s : String) : List Char := s.data

/-- Model of Go's `unicode.IsSpace` on the characters relevant here: ASCII
whitespace plus NEL and NBSP (Go also accepts further Unicode space runes;
none of them can occur in the claims' inputs). -/
def goIsSpace (c : Char) : Bool :=
  c = ' ' || c = '\t' || c = '\n' || c = '\x0b' || c = '\x0c' || c = '\r' ||
  c = '\u0085' || c = ' '

/-- Model of Go's `strings.TrimSpace`: drop leading and trailing whitespace. -/
def goTrim (l : List Char) : List Char :=
  ((l.dropWhile goIsSpace).reverse.dropWhile goIsSpace).reverse

/-- Accumulator pass behind `goFields`; `acc` holds the current token
reversed. -/
def goFieldsAux : List Char → List Char → List (List Char)
  | [], acc => if acc.isEmpty then [] else [acc.reverse]
  | c :: cs, acc =>
      if goIsSpace c then
        if acc.isEmpty then goFieldsAux cs [] else acc.reverse :: goFieldsAux cs []
      else goFieldsAux cs (c :: acc)

/-- Model of Go's `strings.Fields`: split around runs of whitespace, keeping
only the non-empty tokens. -/
def goFields (l : List Char) : List (List Char) := goFieldsAux l []

/-- Model of Go's `strings.Join(parts, " ")`. -/
def joinSp : List (List Char) → List Char
  | [] => []
  | [t] => t
  | t :: ts => t ++ ' ' :: joinSp ts

/-- Model of Go's `strings.Join(parts, sep)` for an arbitrary separator. -/
def joinSep (sep : List Char) : List (List Char) → List Char
  | [] => []
  | [t] => t
  | t :: ts => t ++ sep ++ joinSep sep ts

/-- Model of Go's `strings.HasPrefix`. -/
def startsWith : List Char → List Char → Bool
  | [], _ => true
  | _ :: _, [] => false
  | p :: ps, c :: cs => p = c && startsWith ps cs

/-- ASCII lower-casing of one character, as Go's `strings.ToLower` acts on
the ASCII subcommand tokens compared by the dispatcher. -/
def lowerChar (c : Char) : Char :=
  if 'A' ≤ c ∧ c ≤ 'Z' then Char.ofNat (c.toNat + 32) else c

/-- Model of Go's `strings.ToLower` on the ASCII range. -/
def lowerStr (l : List Char) : List Char := l.map lowerChar

/-- Model of Go's `strings.SplitN(s, "|", 2)`: `none` when `s` has no pipe
(Go returns the one-element slice), otherwise the pieces before and after
the first pipe. -/
def splitFirstPipe : List Char → Option (List Char × List Char)
  | [] => none
  | c :: cs =>
      if c = '|' then some ([], cs)
      else match splitFirstPipe cs with
        | none => none
        | some (a, b) => some (c :: a, b)

/-- Decimal digit test used by the numeric parsers. -/
def isDigitCh (c : Char) : Bool := '0' ≤ c && c ≤ '9'

/-- Numeric value of a decimal digit character. -/
def digitVal (c : Char) : Nat := c.toNat - '0'.toNat

/-- Model of Go's `strconv.Atoi` on the inputs the bot can see: an optional
sign followed by one or more decimal digits and nothing else.  (Go
additionally fails on 64-bit overflow; no claim involves such inputs.) -/
def goAtoi (l : List Char) : Option Int :=
  let core : List Char → Option Nat := fun ds =>
    if ds.isEmpty || !(ds.all isDigitCh) then none
    else some (ds.foldl (fun acc c => acc * 10 + digitVal c) 0)
  match l with
  | '+' :: rest => (core rest).map Int.ofNat
  | '-' :: rest => (core rest).map (fun n => -(Int.ofNat n))
  | _ => (core l).map Int.ofNat

/-- Decimal rendering of a natural number, as Go's `%d`. -/
def natStr (n : Nat) : List Char := (Nat.repr n).data

/-- Decimal rendering of an integer, as Go's `%d`. -/
def intStr (i : Int) : List Char :=
  if i < 0 then '-' :: natStr i.natAbs else natStr i.natAbs


/-! ### Timestamps (`parseSQLiteTime` in store.go / main.go) -/

/-- Calendar time as Go's `time.Parse` produces it from the three layouts the
store accepts; `tzMinutes = none` stands for the local zone used by
`ParseInLocation` when the layout carries no zone. -/
structure GoTime where
  year : Nat
  month : Nat
  day : Nat
  hour : Nat
  minute : Nat
  second : Nat
  nanos : Nat
  tzMinutes : Option Int
deriving DecidableEq, Repr

/-- Accumulator pass reading exactly `n` decimal digits. -/
def readNDigitsAux : Nat → Nat → List Char → Option (Nat × List Char)
  | 0, acc, l => some (acc, l)
  | _ + 1, _, [] => none
  | n + 1, acc, c :: cs =>
      if isDigitCh c then readNDigitsAux n (acc * 10 + digitVal c) cs else none

/-- Read exactly `n` decimal digits, returning their value and the rest. -/
def readNDigits (n : Nat) (l : List Char) : Option (Nat × List Char) :=
  readNDigitsAux n 0 l

/-- Consume one expected literal character. -/
def expectCh (c : Char) : List Char → Option (List Char)
  | [] => none
  | d :: ds => if d = c then some ds else none

/-- Gregorian leap-year rule, as Go's `time` package applies it. -/
def isLeapYear (y : Nat) : Bool := (y % 4 = 0 && y % 100 ≠ 0) || y % 400 = 0

/-- Length of a month, used by Go's date validation. -/
def daysInMonth (y m : Nat) : Nat :=
  if m = 2 then (if isLeapYear y then 29 else 28)
  else if m = 4 || m = 6 || m = 9 || m = 11 then 30
  else 31

/-- Read and validate a `YYYY-MM-DD` date. -/
def readDate (l : List Char) : Option (Nat × Nat × Nat × List Char) := do
  let (y, l) ← readNDigits 4 l
  let l ← expectCh '-' l
  let (mo, l) ← readNDigits 2 l
  let l ← expectCh '-' l
  let (d, l) ← readNDigits 2 l
  if 1 ≤ mo ∧ mo ≤ 12 ∧ 1 ≤ d ∧ d ≤ daysInMonth y mo then some (y, mo, d, l) else none

/-- Read and validate an `HH:MM:SS` clock. -/
def readClock (l : List Char) : Option (Nat × Nat × Nat × List Char) := do
  let (h, l) ← readNDigits 2 l
  let l ← expectCh ':' l
  let (mi, l) ← readNDigits 2 l
  let l ← expectCh ':' l
  let (s, l) ← readNDigits 2 l
  if h ≤ 23 ∧ mi ≤ 59 ∧ s ≤ 59 then some (h, mi, s, l) else none

/-- Read an optional fractional second (Go's `Parse` accepts one after the
seconds field of any layout), returning nanoseconds. -/
def readFrac : List Char → Option (Nat × List Char)
  | '.' :: rest =>
      let ds := rest.takeWhile isDigitCh
      if ds.isEmpty || 9 < ds.length then none
      else
        let v := ds.foldl (fun acc c => acc * 10 + digitVal c) 0
        some (v * 10 ^ (9 - ds.length), rest.drop ds.length)
  | l => some (0, l)

/-- Read an RFC 3339 zone designator: `Z` or `±HH:MM`. -/
def readZone : List Char → Option (Int × List Char)
  | 'Z' :: rest => some (0, rest)
  | '+' :: rest => do
      let (h, l) ← readNDigits 2 rest
      let l ← expectCh ':' l
      let (m, l) ← readNDigits 2 l
      if h ≤ 23 ∧ m ≤ 59 then some ((h * 60 + m : Nat), l) else none
  | '-' :: rest => do
      let (h, l) ← readNDigits 2 rest
      let l ← expectCh ':' l
      let (m, l) ← readNDigits 2 l
      if h ≤ 23 ∧ m ≤ 59 then some (-((h * 60 + m : Nat) : Int), l) else none
  | _ => none

/-- Layout `"2006-01-02 15:04:05"` parsed in the local zone. -/
def parseLayout1 (l : List Char) : Option GoTime := do
  let (y, mo, d, l) ← readDate l
  let l ← expectCh ' ' l
  let (h, mi, s, l) ← readClock l
  let (ns, l) ← readFrac l
  if l.isEmpty then some ⟨y, mo, d, h, mi, s, ns, none⟩ else none

/-- Layouts `time.RFC3339Nano` and `time.RFC3339` (Go parses the same input
set for both, the fractional second being optional either way). -/
def parseRFC3339 (l : List Char) : Option GoTime := do
  let (y, mo, d, l) ← readDate l
  let l ← expectCh 'T' l
  let (h, mi, s, l) ← readClock l
  let (ns, l) ← readFrac l
  let (tz, l) ← readZone l
  if l.isEmpty then some ⟨y, mo, d, h, mi, s, ns, some tz⟩ else none

/-- Model of `parseSQLiteTime`: try the three supported layouts in order and
fail when none accepts the stored string. -/
def parseSQLiteTime (l : List Char) : Option GoTime :=
  (parseLayout1 l).orElse fun _ => parseRFC3339 l

/-! ### SQLite `LIKE` (the `WHERE text LIKE ? OR author LIKE ?` filter) -/

/-- Fuel-indexed core of the `LIKE` matcher; recursion is lexicographic in
(pattern, string) so a fuel of `p.length + s.length + 1` always suffices. -/
def likeMatchF : Nat → List Char → List Char → Bool
  | 0, _, _ => false
  | fuel + 1, p, s =>
      match p with
      | [] => s.isEmpty
      | c :: p' =>
          if c = '%' then
            likeMatchF fuel p' s ||
              (match s with
                | [] => false
                | _ :: s' => likeMatchF fuel (c :: p') s')
          else
            match s with
            | [] => false
            | d :: s' =>
                if c = '_' then likeMatchF fuel p' s'
                else lowerChar c = lowerChar d && likeMatchF fuel p' s'

/-- SQLite's default `LIKE` matcher (no `ESCAPE` clause): `%` matches any
run of characters, `_` matches one character, and comparison of literal
characters folds ASCII case, `case_sensitive_like` being off by default. -/
def likeMatch (p s : List Char) : Bool :=
  likeMatchF (p.length + s.length + 1) p s

/-- The pattern the store builds for a search term: `"%" + term + "%"`. -/
def likePat (term : List Char) : List Char := '%' :: (term ++ ['%'])


/-! ### Data model: the `quotes` table and the store's error values -/

/-- One row of the `quotes` table: `id INTEGER PRIMARY KEY AUTOINCREMENT`,
`text`/`author TEXT NOT NULL`, `created_at` stored as the string SQLite
keeps for a `DATETIME` column. -/
structure Row where
  id : Int
  text : List Char
  author : List Char
  created : List Char
deriving DecidableEq, Repr

/-- Database state: the rows in B-tree (rowid = id) order plus the
AUTOINCREMENT counter (the id the next insert receives; AUTOINCREMENT never
reuses an id, even after deletes). -/
structure DB where
  rows : List Row
  next : Int
deriving DecidableEq, Repr

/-- The Go `Quote` struct, with `CreatedAt` the parsed timestamp. -/
structure Quote where
  id : Int
  text : List Char
  author : List Char
  createdAt : GoTime
deriving DecidableEq, Repr

/-- The distinct error values the store produces on its expected failure
paths (storage-level I/O faults are outside the embedding):
`noQuotes` is the sentinel `ErrNoQuotes` ("no quotes available"),
`emptyText`/`emptyAuthor` are the validation errors from `Add` and the
updates, `notFoundId` is `"no quote with id %d found"` from `Delete` and
the updates, and `badTimestamp` carries the wrapped message of a failed
`created_at` parse. -/
inductive StoreErr where
  | noQuotes
  | emptyText
  | emptyAuthor
  | notFoundId (id : Int)
  | badTimestamp (msg : List Char)
deriving DecidableEq, Repr

/-- Rendering of a store error as Go's `%v` shows it. -/
def renderErr : StoreErr → List Char
  | .noQuotes => str "no quotes available"
  | .emptyText => str "quote text cannot be empty"
  | .emptyAuthor => str "author cannot be empty"
  | .notFoundId id => str "no quote with id " ++ intStr id ++ str " found"
  | .badTimestamp msg => msg

/-- The wrapped error a store operation returns when `scanQuote` fails on a
row: the operation's `fmt.Errorf` context around
`"unsupported timestamp format: %q"`. -/
def badTsErr (opCtx value : List Char) : StoreErr :=
  .badTimestamp (opCtx ++ str ": unsupported timestamp format: \"" ++ value ++ str "\"")

/-- Model of `scanQuote`: build a `Quote` from a row, failing when the
stored `created_at` string parses under no recognized layout. -/
def scanQuote (row : Row) : Option Quote :=
  (parseSQLiteTime row.created).map fun t => ⟨row.id, row.text, row.author, t⟩

/-- The quote a parseable row denotes (`defaultGoTime` is never reached
under the parseability hypotheses the theorems carry). -/
def quoteOfD (row : Row) : Quote :=
  ⟨row.id, row.text, row.author, (parseSQLiteTime row.created).getD ⟨0,0,0,0,0,0,0,none⟩⟩

/-- Insertion step of `sortById`. -/
def insertById (r : Row) : List Row → List Row
  | [] => [r]
  | x :: xs => if r.id ≤ x.id then r :: x :: xs else x :: insertById r xs

/-- The row order an `ORDER BY id` query returns. -/
def sortById : List Row → List Row
  | [] => []
  | x :: xs => insertById x (sortById xs)

/-- Strict scan of a row list, as the `rows.Next()` loops of
`QuoteStore.Search`/`QuoteStore.List` perform it: the first row whose
timestamp fails to parse aborts the whole query with the wrapped error. -/
def scanAll (opCtx : List Char) : List Row → Except StoreErr (List Quote)
  | [] => .ok []
  | row :: rest =>
      match scanQuote row with
      | none => .error (badTsErr opCtx row.created)
      | some q =>
          match scanAll opCtx rest with
          | .error e => .error e
          | .ok qs => .ok (q :: qs)

/-- Lenient scan, as the superseded `main.go` revision's `searchQuotes` and
`listQuotes` loops perform it: a row whose timestamp fails to parse is
logged and skipped, the rest are kept. -/
def scanSkip : List Row → List Quote
  | [] => []
  | row :: rest =>
      match scanQuote row with
      | none => scanSkip rest
      | some q => q :: scanSkip rest

namespace QuoteStore

/-- Model of `QuoteStore.Add`: trim both inputs, reject empty text or
author, otherwise insert a row carrying the current timestamp string `now`
(SQLite's `CURRENT_TIMESTAMP` default) under the next AUTOINCREMENT id and
return that id (`LastInsertId`). -/
def Add (db : DB) (now text author : List Char) : Except StoreErr Int × DB :=
  let text := goTrim text
  let author := goTrim author
  if text = [] then (.error .emptyText, db)
  else if author = [] then (.error .emptyAuthor, db)
  else (.ok db.next, ⟨db.rows ++ [⟨db.next, text, author, now⟩], db.next + 1⟩)

/-- Model of `QuoteStore.GetByID`: `SELECT ... WHERE id = ?`; no row maps
`sql.ErrNoRows` to `ErrNoQuotes`. -/
def GetByID (db : DB) (id : Int) : Except StoreErr Quote :=
  match db.rows.find? (fun row => row.id == id) with
  | none => .error .noQuotes
  | some row =>
      match scanQuote row with
      | none => .error (badTsErr (str "fetching quote by id") row.created)
      | some q => .ok q

/-- Model of `QuoteStore.Random`: count the rows, fail with `ErrNoQuotes`
when the table is empty, otherwise draw `offset := Intn(count)` (modelled
as `r % count`, `Intn` being uniform on `[0, count)`) and fetch
`ORDER BY id LIMIT 1 OFFSET offset`; an empty fetch (`sql.ErrNoRows`, the
tolerated count/fetch race) again maps to `ErrNoQuotes`.  `dbCount` and
`dbFetch` are the states seen by the two statements; they coincide unless a
concurrent mutation lands in between. -/
def Random (dbCount dbFetch : DB) (r : Nat) : Except StoreErr Quote :=
  let count := dbCount.rows.length
  if count = 0 then .error .noQuotes
  else
    let offset := r % count
    match (sortById dbFetch.rows).drop offset with
    | [] => .error .noQuotes
    | row :: _ =>
        match scanQuote row with
        | none => .error (badTsErr (str "scanning random quote") row.created)
        | some q => .ok q

/-- Model of `QuoteStore.Search`: an empty term fails with `ErrNoQuotes`
up front; otherwise filter by `text LIKE '%term%' OR author LIKE '%term%'`
(table scan, hence B-tree order), scan strictly, and fail with
`ErrNoQuotes` when nothing matched. -/
def Search (db : DB) (term : List Char) : Except StoreErr (List Quote) :=
  if term = [] then .error .noQuotes
  else
    let pat := likePat term
    let matched := db.rows.filter fun row =>
      likeMatch pat row.text || likeMatch pat row.author
    match scanAll (str "scanning quote") matched with
    | .error e => .error e
    | .ok quotes => if quotes = [] then .error .noQuotes else .ok quotes

/-- Model of `QuoteStore.List`: `SELECT ... ORDER BY id`, scanned strictly,
with `ErrNoQuotes` on an empty result (Go name `List`, renamed to avoid the
clash with Lean's `List`). -/
def ListAll (db : DB) : Except StoreErr (List Quote) :=
  match scanAll (str "scanning quote") (sortById db.rows) with
  | .error e => .error e
  | .ok quotes => if quotes = [] then .error .noQuotes else .ok quotes

/-- Model of `QuoteStore.Delete`: `DELETE FROM quotes WHERE id = ?`; zero
affected rows yields `"no quote with id %d found"`. -/
def Delete (db : DB) (id : Int) : Except StoreErr Unit × DB :=
  let remaining := db.rows.filter fun row => !(row.id == id)
  let affected := db.rows.length - remaining.length
  if affected = 0 then (.error (.notFoundId id), ⟨remaining, db.next⟩)
  else (.ok (), ⟨remaining, db.next⟩)

/-- Model of `QuoteStore.UpdateText`: trim, reject empty text, run
`UPDATE quotes SET text = ? WHERE id = ?`, and report
`"no quote with id %d found"` when no row was affected. -/
def UpdateText (db : DB) (id : Int) (newText : List Char) : Except StoreErr Unit × DB :=
  let t := goTrim newText
  if t = [] then (.error .emptyText, db)
  else
    let rows' := db.rows.map fun row => if row.id == id then { row with text := t } else row
    let affected := db.rows.countP fun row => row.id == id
    if affected = 0 then (.error (.notFoundId id), ⟨rows', db.next⟩)
    else (.ok (), ⟨rows', db.next⟩)

/-- Model of `QuoteStore.UpdateAuthor`: as `UpdateText`, for the author
column. -/
def UpdateAuthor (db : DB) (id : Int) (newAuthor : List Char) : Except StoreErr Unit × DB :=
  let a := goTrim newAuthor
  if a = [] then (.error .emptyAuthor, db)
  else
    let rows' := db.rows.map fun row => if row.id == id then { row with author := a } else row
    let affected := db.rows.countP fun row => row.id == id
    if affected = 0 then (.error (.notFoundId id), ⟨rows', db.next⟩)
    else (.ok (), ⟨rows', db.next⟩)

/-- Model of `QuoteStore.Latest`: `ORDER BY id DESC LIMIT 1`. -/
def Latest (db : DB) : Except StoreErr Quote :=
  match (sortById db.rows).getLast? with
  | none => .error .noQuotes
  | some row =>
      match scanQuote row with
      | none => .error (badTsErr (str "fetching latest quote") row.created)
      | some q => .ok q

/-- Model of `QuoteStore.Count`: `SELECT COUNT(*)`; only storage-level
faults (outside the embedding) can fail it. -/
def Count (db : DB) : Nat := db.rows.length

end QuoteStore

/-- Model of the superseded `main.go` revision's `searchQuotes`: same
query, but scan failures are logged and skipped (`continue`), and the
empty result is reported as `ErrNoQuotes`.  That revision applies no
empty-term guard: `term = ""` builds the pattern `%%`, which matches every
row. -/
def searchQuotes (db : DB) (term : List Char) : Except StoreErr (List Quote) :=
  let pat := likePat term
  let matched := db.rows.filter fun row =>
    likeMatch pat row.text || likeMatch pat row.author
  let quotes := scanSkip matched
  if quotes = [] then .error .noQuotes else .ok quotes

/-- Model of the superseded `main.go` revision's `listQuotes`: ordered by
id, scan failures skipped, empty result reported as `ErrNoQuotes`. -/
def listQuotes (db : DB) : Except StoreErr (List Quote) :=
  let quotes := scanSkip (sortById db.rows)
  if quotes = [] then .error .noQuotes else .ok quotes

/-! ### Formatting helpers shared by the dispatcher -/

/-- Model of `formatQuote`: the reply line `#<id>: "<text>" - <author>`. -/
def formatQuote (q : Quote) : List Char :=
  str "#" ++ intStr q.id ++ str ": \"" ++ q.text ++ str "\" - " ++ q.author

/-- The help text returned by `printHelp` in commands.go. -/
def printHelp : List Char :=
  str "Usage:\n!quote              - Return a random quote.\n!quote add <quote>  - Add a new quote (author will be the sender).\n!quote add <author> | <quote> - Add a quote for another author.\n!quote search <term> - Search for a quote.\n!quote get <id>     - Get a specific quote by ID.\n!quote list         - List the first 5 quotes.\n!quote latest       - Show the most recently added quote.\n!quote count        - Show how many quotes are stored.\n!quote delete <id>  - Delete a quote (moderator only).\n!quote help        - Show this help message."

/-- Model of `pluralize`: singular for a count of one, plural otherwise. -/
def pluralize (single plural : List Char) (count : Nat) : List Char :=
  if count = 1 then single else plural

/-- Model of `pluralSuffix`: empty for one, `"s"` otherwise. -/
def pluralSuffix (count : Nat) : List Char :=
  if count = 1 then [] else ['s']

/-- Zero-padded two-digit rendering used by the RFC 822 layout. -/
def pad2 (n : Nat) : List Char := if n < 10 then '0' :: natStr n else natStr n

/-- Month abbreviation of the RFC 822 layout (months are validated to
1..12 by the parsers). -/
def monthAbbrev (m : Nat) : List Char :=
  if m = 1 then str "Jan" else if m = 2 then str "Feb" else if m = 3 then str "Mar"
  else if m = 4 then str "Apr" else if m = 5 then str "May" else if m = 6 then str "Jun"
  else if m = 7 then str "Jul" else if m = 8 then str "Aug" else if m = 9 then str "Sep"
  else if m = 10 then str "Oct" else if m = 11 then str "Nov" else str "Dec"

/-- Rendering of `CreatedAt.Format(time.RFC822)` (`"02 Jan 06 15:04 MST"`)
used by the `latest` reply.  The zone column for a local time depends on
the host environment; it is rendered here as `LOCAL` (no claim observes
this reply). -/
def formatRFC822 (t : GoTime) : List Char :=
  pad2 t.day ++ str " " ++ monthAbbrev t.month ++ str " " ++ pad2 (t.year % 100) ++
  str " " ++ pad2 t.hour ++ str ":" ++ pad2 t.minute ++ str " " ++
  (match t.tzMinutes with
   | none => str "LOCAL"
   | some off =>
       if off = 0 then str "UTC"
       else (if off < 0 then str "-" else str "+") ++
         pad2 (off.natAbs / 60) ++ pad2 (off.natAbs % 60))

/-! ### The command dispatcher (`CommandHandler.Handle`, commands.go
revision of part_003) -/

/-- Model of `CommandHandler.Handle` (the same branch logic appears in the
superseded `handleTwitchCommand` of main.go).  The `context.Context` of
the Go signature carries no data relevant here; the ambient clock reaches
the embedding as `now` (the `created_at` string an insert would store) and
the store's RNG draw as `r`.  The return value pairs the reply lines with
the database state after the call.  The nil-handler guard of the Go method
is not modelled: the embedded handler always holds a store. -/
def Handle (db : DB) (now : List Char) (r : Nat) (message user : List Char) :
    List (List Char) × DB :=
  if !(startsWith (str "!quote") message) then ([], db)
  else
    match goFields message with
    | [] => ([], db)
    | [_] =>
        (match QuoteStore.Random db db r with
         | .error .noQuotes =>
             ([str "No quotes have been added yet. Try !quote add to add one!"], db)
         | .error e => ([str "Error fetching quote: " ++ renderErr e], db)
         | .ok q => ([formatQuote q], db))
    | _ :: sub :: args =>
        let subcmd := lowerStr sub
        if subcmd = str "help" then ([printHelp], db)
        else if subcmd = str "add" then
          match args with
          | [] => ([str "Usage: !quote add <quote text>"], db)
          | _ :: _ =>
              let quoteText := joinSp args
              let (text, author) :=
                match splitFirstPipe quoteText with
                | none => (quoteText, user)
                | some (before, after) =>
                    let customAuthor := goTrim before
                    (goTrim after, if customAuthor = [] then user else customAuthor)
              match QuoteStore.Add db now (goTrim text) author with
              | (.error e, db') => ([str "Error adding quote: " ++ renderErr e], db')
              | (.ok id, db') => ([str "Quote added with ID #" ++ intStr id ++ str "."], db')
        else if subcmd = str "search" then
          match args with
          | [] => ([str "Usage: !quote search <term>"], db)
          | _ :: _ =>
              let term := joinSp args
              match QuoteStore.Search db term with
              | .error .noQuotes => ([str "No matching quotes found."], db)
              | .error e => ([str "Error searching quotes: " ++ renderErr e], db)
              | .ok [] => ([], db)
              | .ok (q :: _) => ([formatQuote q], db)
        else if subcmd = str "get" then
          match args with
          | [] => ([str "Usage: !quote get <id>"], db)
          | idStr :: _ =>
              match goAtoi idStr with
              | none => ([str "Invalid quote ID."], db)
              | some id =>
                  match QuoteStore.GetByID db id with
                  | .error .noQuotes =>
                      ([str "No quote with ID #" ++ intStr id ++ str " found."], db)
                  | .error e =>
                      ([str "Error fetching quote #" ++ intStr id ++ str ": " ++ renderErr e], db)
                  | .ok q => ([formatQuote q], db)
        else if subcmd = str "list" then
          match QuoteStore.ListAll db with
          | .error .noQuotes => ([str "No quotes found."], db)
          | .error e => ([str "Error listing quotes: " ++ renderErr e], db)
          | .ok quotes => ([joinSep (str " | ") ((quotes.take 5).map formatQuote)], db)
        else if subcmd = str "latest" then
          match QuoteStore.Latest db with
          | .error .noQuotes => ([str "No quotes have been added yet."], db)
          | .error e => ([str "Error fetching latest quote: " ++ renderErr e], db)
          | .ok q =>
              ([str "Latest is #" ++ intStr q.id ++ str ": \"" ++ q.text ++ str "\" - " ++
                q.author ++ str " (added " ++ formatRFC822 q.createdAt ++ str ")"], db)
        else if subcmd = str "count" then
          let total := QuoteStore.Count db
          if total = 0 then ([str "No quotes have been added yet."], db)
          else
            ([str "There " ++ pluralize (str "is") (str "are") total ++ str " " ++
              natStr total ++ str " quote" ++ pluralSuffix total ++ str " saved."], db)
        else if subcmd = str "delete" then
          match args with
          | [] => ([str "Usage: !quote delete <id>"], db)
          | idStr :: _ =>
              match goAtoi idStr with
              | none => ([str "Invalid quote ID."], db)
              | some id =>
                  match QuoteStore.Delete db id with
                  | (.error e, db') =>
                      ([str "Error deleting quote #" ++ intStr id ++ str ": " ++ renderErr e], db')
                  | (.ok _, db') => ([str "Quote #" ++ intStr id ++ str " deleted."], db')
        else ([printHelp], db)

/-- Whether a message dispatches as a `delete` command: the `!quote`
prefix test followed by `delete` as the lower-cased second token. -/
def isDeleteCmd (message : List Char) : Bool :=
  startsWith (str "!quote") message &&
    match goFields message with
    | _ :: sub :: _ => lowerStr sub == str "delete"
    | _ => false

/-- Modelled from the spec: the fixed refusal line of the privileged-flag
check (the current commands.go is not under src/; only its callers and
documentation fix its behavior, not the exact wording). -/
def refusalMessage : List Char := str "Only moderators can use that command."

/-- Modelled from the spec: the current commands.go revision's
`CommandHandler.Handle(ctx, message, user, isMod)` — the four-argument
handler that twitch.go calls with `isModerator(message.User)` and cli.go
with `true` — which mediates `delete` by the caller's privileged flag,
refusing with a fixed message (without touching the store) when the flag
is false and dispatching as before when it is true.  The source file
itself (commands.go of the current revision) is missing from src/. -/
def HandleMod (db : DB) (now : List Char) (r : Nat) (message user : List Char)
    (isMod : Bool) : List (List Char) × DB :=
  if isDeleteCmd message && !isMod then ([refusalMessage], db)
  else Handle db now r message user

/-! ### Predicates and auxiliary definitions used by the theorems -/

/-- The rows are strictly ascending in id — the B-tree invariant every
state reachable from an empty table satisfies. -/
abbrev Sorted (rows : List Row) : Prop := List.Pairwise (fun a b => a.id < b.id) rows

/-- Every stored id is below the AUTOINCREMENT counter. -/
abbrev IdsBounded (db : DB) : Prop := ∀ row ∈ db.rows, row.id < db.next

/-- Every stored `created_at` string parses under a recognized layout. -/
abbrev AllParse (rows : List Row) : Prop :=
  ∀ row ∈ rows, (parseSQLiteTime row.created).isSome = true

/-- The term contains no `LIKE` wildcard. -/
abbrev NoWild (t : List Char) : Prop := ∀ c ∈ t, c ≠ '%' ∧ c ≠ '_'

/-- Spec-side matcher: `needle` occurs in `hay` as an ASCII-case-insensitive
substring. -/
def ciContains (needle hay : List Char) : Bool :=
  decide (lowerStr needle <:+: lowerStr hay)

/-- Spec-side matcher of the claim as frozen: case-sensitive substring
containment on the raw stored strings. -/
def containsSub (needle hay : List Char) : Bool := decide (needle <:+: hay)

/-- The reply the dispatcher's `add` branch produces once the store
receives `(text, author)` — the continuation after argument parsing. -/
def addReply (db : DB) (now text author : List Char) : List (List Char) × DB :=
  match QuoteStore.Add db now text author with
  | (.error e, db') => ([str "Error adding quote: " ++ renderErr e], db')
  | (.ok id, db') => ([str "Quote added with ID #" ++ intStr id ++ str "."], db')

instance {ε α : Type} [DecidableEq ε] [DecidableEq α] : DecidableEq (Except ε α) := fun a b =>
  match a, b with
  | .error x, .error y =>
      if h : x = y then .isTrue (by rw [h]) else .isFalse (by intro hc; cases hc; exact h rfl)
  | .error _, .ok _ => .isFalse (by intro hc; cases hc)
  | .ok _, .error _ => .isFalse (by intro hc; cases hc)
  | .ok x, .ok y =>
      if h : x = y then .isTrue (by rw [h]) else .isFalse (by intro hc; cases hc; exact h rfl)

/-- One-quote database used by several witnesses. -/
def dbHello : DB := ⟨[⟨1, str "hello world", str "alice", str "2024-01-02 03:04:05"⟩], 2⟩

/-- Three-quote database used by the random/list witnesses. -/
def dbThree : DB :=
  ⟨[⟨1, str "alpha", str "alice", str "2024-01-02 03:04:05"⟩,
    ⟨2, str "beta", str "bob", str "2024-01-03 03:04:05"⟩,
    ⟨3, str "gamma", str "carol", str "2024-01-04 03:04:05"⟩], 4⟩

/-- Database holding one row with an unparsable timestamp next to a good
one; both match the term `"alpha"`. -/
def dbBadTs : DB :=
  ⟨[⟨1, str "alpha one", str "ann", str "garbage"⟩,
    ⟨2, str "alpha two", str "ben", str "2024-01-02 03:04:05"⟩], 3⟩

/-! ### Lemmas about the `LIKE` matcher -/

theorem likeMatchF_irrel : ∀ (f₁ f₂ : Nat) (p s : List Char),
    p.length + s.length < f₁ → p.length + s.length < f₂ →
    likeMatchF f₁ p s = likeMatchF f₂ p s := by
  intro f₁
  induction f₁ with
  | zero => intro f₂ p s h₁ _; exact absurd h₁ (Nat.not_lt_zero _)
  | succ n ih =>
    intro f₂ p s h₁ h₂
    cases f₂ with
    | zero => exact absurd h₂ (Nat.not_lt_zero _)
    | succ m =>
      cases p with
      | nil => rw [likeMatchF.eq_2, likeMatchF.eq_2]
      | cons c p' =>
        cases s with
        | nil =>
          simp only [List.length_cons, List.length_nil] at h₁ h₂
          rw [likeMatchF.eq_3, likeMatchF.eq_3]
          by_cases hc : c = '%'
          · rw [if_pos hc, if_pos hc,
                ih m p' [] (by simp only [List.length_nil]; omega)
                  (by simp only [List.length_nil]; omega)]
          · rw [if_neg hc, if_neg hc]
        | cons d s' =>
          simp only [List.length_cons] at h₁ h₂
          rw [likeMatchF.eq_4, likeMatchF.eq_4]
          by_cases hc : c = '%'
          · rw [if_pos hc, if_pos hc,
                ih m p' (d :: s') (by simp only [List.length_cons]; omega)
                  (by simp only [List.length_cons]; omega),
                ih m (c :: p') s' (by simp only [List.length_cons]; omega)
                  (by simp only [List.length_cons]; omega)]
          · rw [if_neg hc, if_neg hc]
            by_cases hu : c = '_'
            · rw [if_pos hu, if_pos hu, ih m p' s' (by omega) (by omega)]
            · rw [if_neg hu, if_neg hu, ih m p' s' (by omega) (by omega)]

theorem likeMatchF_eq_likeMatch (f : Nat) (p s : List Char)
    (h : p.length + s.length < f) : likeMatchF f p s = likeMatch p s :=
  likeMatchF_irrel f (p.length + s.length + 1) p s h (by omega)

theorem likeMatch_nil_pat (s : List Char) : likeMatch [] s = s.isEmpty := by
  rw [likeMatch, likeMatchF.eq_2]

theorem likeMatch_pct_nil (p : List Char) : likeMatch ('%' :: p) [] = likeMatch p [] := by
  rw [likeMatch, likeMatchF.eq_3, if_pos rfl, Bool.or_false,
      likeMatchF_eq_likeMatch _ _ _ (by simp only [List.length_cons, List.length_nil]; omega)]

theorem likeMatch_pct_cons (p : List Char) (d : Char) (s' : List Char) :
    likeMatch ('%' :: p) (d :: s') = (likeMatch p (d :: s') || likeMatch ('%' :: p) s') := by
  rw [likeMatch, likeMatchF.eq_4, if_pos rfl,
      likeMatchF_eq_likeMatch _ _ _ (by simp only [List.length_cons]; omega),
      likeMatchF_eq_likeMatch _ _ _ (by simp only [List.length_cons]; omega)]

theorem likeMatch_lit_nil {c : Char} (p : List Char) (hc : c ≠ '%') :
    likeMatch (c :: p) [] = false := by
  rw [likeMatch, likeMatchF.eq_3, if_neg hc]

theorem likeMatch_lit_cons {c : Char} (p : List Char) {d : Char} (s' : List Char)
    (hc : c ≠ '%') (hu : c ≠ '_') :
    likeMatch (c :: p) (d :: s') = (decide (lowerChar c = lowerChar d) && likeMatch p s') := by
  rw [likeMatch, likeMatchF.eq_4, if_neg hc, if_neg hu,
      likeMatchF_eq_likeMatch _ _ _ (by simp only [List.length_cons]; omega)]

theorem like_pct_iff (p s : List Char) :
    likeMatch ('%' :: p) s = true ↔ ∃ k, likeMatch p (s.drop k) = true := by
  induction s with
  | nil =>
    rw [likeMatch_pct_nil]
    simp [List.drop_nil]
  | cons d s' ih =>
    rw [likeMatch_pct_cons]
    constructor
    · intro h
      rcases Bool.or_eq_true_iff.mp h with h' | h'
      · exact ⟨0, by simpa using h'⟩
      · obtain ⟨k, hk⟩ := ih.mp h'
        exact ⟨k + 1, by simpa using hk⟩
    · rintro ⟨k, hk⟩
      cases k with
      | zero =>
        rw [List.drop_zero] at hk
        exact Bool.or_eq_true_iff.mpr (Or.inl hk)
      | succ k =>
        rw [List.drop_succ_cons] at hk
        exact Bool.or_eq_true_iff.mpr (Or.inr (ih.mpr ⟨k, hk⟩))

theorem like_litpct (t : List Char) (h : NoWild t) :
    ∀ s, (likeMatch (t ++ ['%']) s = true ↔ lowerStr t <+: lowerStr s) := by
  induction t with
  | nil =>
    intro s
    rw [List.nil_append]
    constructor
    · intro _; exact List.nil_prefix
    · intro _
      exact (like_pct_iff [] s).mpr
        ⟨s.length, by rw [List.drop_length, likeMatch_nil_pat]; rfl⟩
  | cons c t' ih =>
    intro s
    have hc : c ≠ '%' := (h c (List.mem_cons_self c t')).1
    have hu : c ≠ '_' := (h c (List.mem_cons_self c t')).2
    have h' : NoWild t' := fun x hx => h x (List.mem_cons_of_mem _ hx)
    cases s with
    | nil =>
      rw [List.cons_append, likeMatch_lit_nil _ hc]
      simp [lowerStr]
    | cons d s' =>
      rw [List.cons_append, likeMatch_lit_cons _ _ hc hu]
      simp only [Bool.and_eq_true, decide_eq_true_eq]
      have hih := ih h' s'
      simp only [lowerStr] at hih ⊢
      rw [List.map_cons, List.map_cons, List.cons_prefix_cons, hih]

theorem substr_iff_drop (p l : List Char) : (∃ k, p <+: l.drop k) ↔ p <:+: l := by
  constructor
  · rintro ⟨k, r, hr⟩
    exact ⟨l.take k, r, by rw [List.append_assoc, hr, List.take_append_drop]⟩
  · rintro ⟨a, b, rfl⟩
    refine ⟨a.length, ?_⟩
    rw [List.append_assoc, List.drop_left]
    exact ⟨b, rfl⟩

theorem likeMatch_pat_iff (t s : List Char) (h : NoWild t) :
    likeMatch (likePat t) s = true ↔ lowerStr t <:+: lowerStr s := by
  unfold likePat
  rw [like_pct_iff]
  constructor
  · rintro ⟨k, hk⟩
    rw [like_litpct t h] at hk
    refine (substr_iff_drop _ _).mp ⟨k, ?_⟩
    simp only [lowerStr] at hk ⊢
    rwa [List.map_drop] at hk
  · intro hinf
    obtain ⟨k, hk⟩ := (substr_iff_drop (lowerStr t) (lowerStr s)).mpr hinf
    refine ⟨k, ?_⟩
    rw [like_litpct t h]
    simp only [lowerStr] at hk ⊢
    rwa [← List.map_drop] at hk

theorem likeMatch_eq_ciContains (t s : List Char) (h : NoWild t) :
    likeMatch (likePat t) s = ciContains t s := by
  by_cases hq : lowerStr t <:+: lowerStr s
  · rw [(likeMatch_pat_iff t s h).mpr hq]
    simp [ciContains, hq]
  · have h1 : likeMatch (likePat t) s = false := by
      cases hb : likeMatch (likePat t) s
      · rfl
      · exact absurd ((likeMatch_pat_iff t s h).mp hb) hq
    rw [h1]
    simp [ciContains, hq]

/-! ### Lemmas about the store's scan and order -/

theorem sortById_sorted {rows : List Row} (h : Sorted rows) : sortById rows = rows := by
  induction rows with
  | nil => rfl
  | cons x xs ih =>
    rcases List.pairwise_cons.mp h with ⟨hx, hxs⟩
    rw [sortById, ih hxs]
    cases xs with
    | nil => rfl
    | cons y ys =>
      rw [insertById, if_pos (le_of_lt (hx y (List.mem_cons_self y ys)))]

theorem scanQuote_eq (row : Row) (h : (parseSQLiteTime row.created).isSome = true) :
    scanQuote row = some (quoteOfD row) := by
  rcases hp : parseSQLiteTime row.created with _ | t
  · rw [hp] at h; cases h
  · simp [scanQuote, quoteOfD, hp]

theorem scanAll_allparse (opCtx : List Char) (rows : List Row) (h : AllParse rows) :
    scanAll opCtx rows = .ok (rows.map quoteOfD) := by
  induction rows with
  | nil => rfl
  | cons row rest ih =>
    have h1 := h row (List.mem_cons_self row rest)
    have h2 : AllParse rest := fun r hr => h r (List.mem_cons_of_mem _ hr)
    simp only [scanAll, scanQuote_eq row h1, ih h2, List.map_cons]

theorem scanSkip_eq (rows : List Row) :
    scanSkip rows =
      (rows.filter fun row => (parseSQLiteTime row.created).isSome).map quoteOfD := by
  induction rows with
  | nil => rfl
  | cons row rest ih =>
    simp only [scanSkip]
    rcases hp : parseSQLiteTime row.created with _ | t
    · have hsq : scanQuote row = none := by simp [scanQuote, hp]
      rw [hsq, ih, List.filter_cons]
      simp [hp]
    · have hsq : scanQuote row = some (quoteOfD row) := scanQuote_eq row (by simp [hp])
      rw [hsq, ih, List.filter_cons]
      simp [hp]

theorem Search_eq (db : DB) (t : List Char) (ht : t ≠ [])
    (hp : AllParse db.rows) (hw : NoWild t) :
    QuoteStore.Search db t =
      (if (db.rows.filter fun row => ciContains t row.text || ciContains t row.author) = []
       then .error .noQuotes
       else .ok ((db.rows.filter fun row =>
          ciContains t row.text || ciContains t row.author).map quoteOfD)) := by
  unfold QuoteStore.Search
  rw [if_neg ht]
  have hfeq : (db.rows.filter fun row =>
        likeMatch (likePat t) row.text || likeMatch (likePat t) row.author)
      = db.rows.filter fun row => ciContains t row.text || ciContains t row.author :=
    List.filter_congr fun row _ => by
      rw [likeMatch_eq_ciContains _ _ hw, likeMatch_eq_ciContains _ _ hw]
  have hp' : AllParse (db.rows.filter fun row =>
      ciContains t row.text || ciContains t row.author) :=
    fun r hr => hp r (List.mem_of_mem_filter hr)
  simp only [hfeq, scanAll_allparse _ _ hp', List.map_eq_nil_iff]

theorem Search_ok_ne_nil {db : DB} {t : List Char} {qs : List Quote}
    (h : QuoteStore.Search db t = .ok qs) : qs ≠ [] := by
  unfold QuoteStore.Search at h
  by_cases ht : t = []
  · rw [if_pos ht] at h; cases h
  · rw [if_neg ht] at h
    dsimp only at h
    split at h
    · cases h
    · split at h
      · cases h
      · rename_i hq
        cases h
        exact hq

/-! ### Random selection (claim C2) -/

theorem sorted_id_inj {rows : List Row} (hs : Sorted rows) {i k : Nat}
    (hi : i < rows.length) (hk : k < rows.length)
    (h : (rows.get ⟨i, hi⟩).id = (rows.get ⟨k, hk⟩).id) : i = k := by
  rcases lt_trichotomy i k with hlt | heq | hgt
  · have := (List.pairwise_iff_get.mp hs) ⟨i, hi⟩ ⟨k, hk⟩ hlt
    exact absurd h (ne_of_lt this)
  · exact heq
  · have := (List.pairwise_iff_get.mp hs) ⟨k, hk⟩ ⟨i, hi⟩ hgt
    exact absurd h.symm (ne_of_lt this)

theorem Random_sel (db : DB) (hs : Sorted db.rows) (hp : AllParse db.rows)
    (r : Nat) (hne : db.rows ≠ []) :
    QuoteStore.Random db db r =
      .ok (quoteOfD (db.rows.getD (r % db.rows.length) ⟨0, [], [], []⟩)) := by
  have hlen : 0 < db.rows.length := List.length_pos.mpr hne
  have hmod : r % db.rows.length < db.rows.length := Nat.mod_lt _ hlen
  unfold QuoteStore.Random
  rw [if_neg (Nat.pos_iff_ne_zero.mp hlen)]
  dsimp only
  rw [sortById_sorted hs, List.drop_eq_getElem_cons hmod]
  dsimp only
  rw [scanQuote_eq _ (hp _ (List.getElem_mem hmod)), List.getD_eq_getElem _ _ hmod]

/-- C2: `Random` on an empty collection always fails with `NotFound`
(`ErrNoQuotes`); on `n` live quotes it counts them, draws a uniform offset
in `[0, n)` and returns the quote at that offset in ascending-id order, so
each live quote is selected by exactly one of the `n` equiprobable draws
(probability `1/n`); and an empty fetch at the drawn offset — the
tolerated count/fetch race with a concurrent delete — yields `NotFound`
rather than a crash. -/
theorem C2_random_uniform (db : DB) (hs : Sorted db.rows) (hp : AllParse db.rows) :
    (db.rows = [] → ∀ dbF r, QuoteStore.Random db dbF r = .error .noQuotes) ∧
    (∀ r, db.rows ≠ [] →
      QuoteStore.Random db db r =
        .ok (quoteOfD (db.rows.getD (r % db.rows.length) ⟨0, [], [], []⟩))) ∧
    (∀ row ∈ db.rows,
      ((Finset.range db.rows.length).filter fun o =>
          QuoteStore.Random db db o = .ok (quoteOfD row)).card = 1) ∧
    (∀ dbF r, db.rows ≠ [] → (sortById dbF.rows).length ≤ r % db.rows.length →
      QuoteStore.Random db dbF r = .error .noQuotes) := by
  refine ⟨?_, fun r hne => Random_sel db hs hp r hne, ?_, ?_⟩
  · intro he dbF r
    unfold QuoteStore.Random
    rw [he]
    rfl
  · intro row hrow
    have hne : db.rows ≠ [] := List.ne_nil_of_mem hrow
    obtain ⟨⟨j, hjlt⟩, hget⟩ := List.mem_iff_get.mp hrow
    have hset : ((Finset.range db.rows.length).filter fun o =>
        QuoteStore.Random db db o = .ok (quoteOfD row)) = {j} := by
      apply Finset.ext
      intro o
      simp only [Finset.mem_filter, Finset.mem_range, Finset.mem_singleton]
      constructor
      · rintro ⟨ho, heq⟩
        rw [Random_sel db hs hp o hne] at heq
        have hmo : o % db.rows.length = o := Nat.mod_eq_of_lt ho
        rw [hmo, List.getD_eq_getElem _ _ ho] at heq
        have hq : quoteOfD (db.rows.get ⟨o, ho⟩) = quoteOfD row := by
          have := heq
          simp only [Except.ok.injEq] at this
          simpa [List.get_eq_getElem] using this
        have hqq : quoteOfD (db.rows.get ⟨o, ho⟩) = quoteOfD (db.rows.get ⟨j, hjlt⟩) := by
          rw [hget]; exact hq
        exact sorted_id_inj hs ho hjlt (congrArg Quote.id hqq)
      · intro hoe
        refine ⟨by rw [hoe]; exact hjlt, ?_⟩
        rw [hoe, Random_sel db hs hp j hne]
        have hmj : j % db.rows.length = j := Nat.mod_eq_of_lt hjlt
        rw [hmj, List.getD_eq_getElem _ _ hjlt, ← hget]
        simp [List.get_eq_getElem]
    rw [hset, Finset.card_singleton]
  · intro dbF r hne hle
    have hlen : 0 < db.rows.length := List.length_pos.mpr hne
    unfold QuoteStore.Random
    rw [if_neg (Nat.pos_iff_ne_zero.mp hlen)]
    dsimp only
    rw [List.drop_eq_nil_of_le hle]

theorem C2_random_uniform_witness :
    QuoteStore.Random dbThree dbThree 5 =
      .ok (quoteOfD (dbThree.rows.getD (5 % dbThree.rows.length) ⟨0, [], [], []⟩)) :=
  (C2_random_uniform dbThree (by decide) (by decide)).2.1 5 (by decide)

/-! ### Search semantics (claim C3) -/

/-- C3 (amended): for every non-empty term containing no `LIKE` wildcard
(`%` or `_`), `Search` returns exactly the quotes whose stored text or
author contains the term as an ASCII-case-insensitive substring of the raw
stored strings — the SQLite default `LIKE` semantics, not the
case-sensitive match the claim states — in ascending-id order and nothing
else; it fails with `NotFound` when the term is the empty string or when
no quote matches. -/
theorem C3_search_semantics (db : DB) (t : List Char)
    (hs : Sorted db.rows) (hp : AllParse db.rows) (ht : t ≠ []) (hw : NoWild t) :
    (QuoteStore.Search db [] = .error .noQuotes) ∧
    (QuoteStore.Search db t =
      (if (db.rows.filter fun row => ciContains t row.text || ciContains t row.author) = []
       then .error .noQuotes
       else .ok ((db.rows.filter fun row =>
          ciContains t row.text || ciContains t row.author).map quoteOfD))) ∧
    List.Pairwise (fun a b => a.id < b.id)
      ((db.rows.filter fun row =>
          ciContains t row.text || ciContains t row.author).map quoteOfD) := by
  refine ⟨rfl, Search_eq db t ht hp hw, ?_⟩
  exact (hs.filter _).map quoteOfD fun a b hab => by simpa [quoteOfD] using hab

theorem C3_search_semantics_witness :
    QuoteStore.Search dbHello (str "hello") =
      .ok [⟨1, str "hello world", str "alice", ⟨2024, 1, 2, 3, 4, 5, 0, none⟩⟩] := by
  have h := C3_search_semantics dbHello (str "hello") (by decide) (by decide)
    (by decide) (by decide)
  rw [h.2.1]
  decide

theorem C3_counterexample :
    QuoteStore.Search dbHello (str "HELLO") =
      .ok [⟨1, str "hello world", str "alice", ⟨2024, 1, 2, 3, 4, 5, 0, none⟩⟩] ∧
    containsSub (str "HELLO") (str "hello world") = false ∧
    containsSub (str "HELLO") (str "alice") = false := by
  refine ⟨by decide, by decide, by decide⟩

/-! ### Stale-timestamp tolerance (claim C4) -/

/-- C4 (amended): the superseded main.go revision's `searchQuotes` and
`listQuotes` skip each row whose stored `created_at` cannot be parsed under
any recognized layout and still return the remaining matching rows (failing
only with `NotFound` when nothing parseable remains), and in particular
never surface a timestamp error; the current store revision's
`QuoteStore.Search`/`QuoteStore.List` instead fail the whole query on the
first such row (see the counterexample). -/
theorem C4_skip_unparsable (db : DB) (term : List Char) :
    (searchQuotes db term =
      (if ((db.rows.filter fun row =>
              likeMatch (likePat term) row.text || likeMatch (likePat term) row.author).filter
              fun row => (parseSQLiteTime row.created).isSome) = []
       then .error .noQuotes
       else .ok (((db.rows.filter fun row =>
              likeMatch (likePat term) row.text || likeMatch (likePat term) row.author).filter
              fun row => (parseSQLiteTime row.created).isSome).map quoteOfD))) ∧
    (listQuotes db =
      (if ((sortById db.rows).filter fun row => (parseSQLiteTime row.created).isSome) = []
       then .error .noQuotes
       else .ok (((sortById db.rows).filter fun row =>
          (parseSQLiteTime row.created).isSome).map quoteOfD))) ∧
    (∀ m, searchQuotes db term ≠ .error (.badTimestamp m)) ∧
    (∀ m, listQuotes db ≠ .error (.badTimestamp m)) := by
  have hsearch : searchQuotes db term =
      (if ((db.rows.filter fun row =>
              likeMatch (likePat term) row.text || likeMatch (likePat term) row.author).filter
              fun row => (parseSQLiteTime row.created).isSome) = []
       then .error .noQuotes
       else .ok (((db.rows.filter fun row =>
              likeMatch (likePat term) row.text || likeMatch (likePat term) row.author).filter
              fun row => (parseSQLiteTime row.created).isSome).map quoteOfD)) := by
    simp only [searchQuotes, scanSkip_eq, List.map_eq_nil_iff]
  have hlist : listQuotes db =
      (if ((sortById db.rows).filter fun row => (parseSQLiteTime row.created).isSome) = []
       then .error .noQuotes
       else .ok (((sortById db.rows).filter fun row =>
          (parseSQLiteTime row.created).isSome).map quoteOfD)) := by
    simp only [listQuotes, scanSkip_eq, List.map_eq_nil_iff]
  refine ⟨hsearch, hlist, ?_, ?_⟩
  · intro m hc
    rw [hsearch] at hc
    by_cases hnil : ((db.rows.filter fun row =>
        likeMatch (likePat term) row.text || likeMatch (likePat term) row.author).filter
        fun row => (parseSQLiteTime row.created).isSome) = []
    · rw [if_pos hnil] at hc; cases hc
    · rw [if_neg hnil] at hc; cases hc
  · intro m hc
    rw [hlist] at hc
    by_cases hnil : ((sortById db.rows).filter
        fun row => (parseSQLiteTime row.created).isSome) = []
    · rw [if_pos hnil] at hc; cases hc
    · rw [if_neg hnil] at hc; cases hc

theorem C4_counterexample :
    QuoteStore.Search dbBadTs (str "alpha") =
      .error (.badTimestamp
        (str "scanning quote: unsupported timestamp format: \"garbage\"")) ∧
    searchQuotes dbBadTs (str "alpha") =
      .ok [⟨2, str "alpha two", str "ben", ⟨2024, 1, 2, 3, 4, 5, 0, none⟩⟩] := by
  refine ⟨by decide, by decide⟩

/-! ### Add (claim C6) -/

/-- C6: `Add` trims both inputs and fails with the validation error —
leaving the collection unchanged — when text or author is empty after
trimming; otherwise it persists a new row and returns its freshly assigned
id; ids returned by successive successful calls are strictly increasing,
and `GetByID` of a returned id yields a quote whose text and author are
the trimmed inputs. -/
theorem C6_add_contract (db : DB) (now text author : List Char)
    (hb : IdsBounded db) (hnow : (parseSQLiteTime now).isSome = true) :
    (goTrim text = [] → QuoteStore.Add db now text author = (.error .emptyText, db)) ∧
    (goTrim text ≠ [] → goTrim author = [] →
      QuoteStore.Add db now text author = (.error .emptyAuthor, db)) ∧
    (goTrim text ≠ [] → goTrim author ≠ [] →
      (QuoteStore.Add db now text author).1 = .ok db.next ∧
      QuoteStore.GetByID (QuoteStore.Add db now text author).2 db.next =
        .ok ⟨db.next, goTrim text, goTrim author,
          (parseSQLiteTime now).getD ⟨0, 0, 0, 0, 0, 0, 0, none⟩⟩ ∧
      (∀ now₂ t₂ a₂, goTrim t₂ ≠ [] → goTrim a₂ ≠ [] →
        (QuoteStore.Add (QuoteStore.Add db now text author).2 now₂ t₂ a₂).1 =
          .ok (db.next + 1) ∧ db.next < db.next + 1)) := by
  refine ⟨fun h => by simp [QuoteStore.Add, h],
    fun h1 h2 => by simp [QuoteStore.Add, h1, h2], fun h1 h2 => ?_⟩
  have hdb2 : (QuoteStore.Add db now text author).2 =
      ⟨db.rows ++ [⟨db.next, goTrim text, goTrim author, now⟩], db.next + 1⟩ := by
    simp [QuoteStore.Add, h1, h2]
  refine ⟨by simp [QuoteStore.Add, h1, h2], ?_, ?_⟩
  · rw [hdb2]
    unfold QuoteStore.GetByID
    rw [List.find?_append]
    have hnone : db.rows.find? (fun row => row.id == db.next) = none :=
      List.find?_eq_none.mpr fun x hx => by
        simp only [beq_iff_eq]
        exact fun hcc => absurd hcc (ne_of_lt (hb x hx))
    rw [hnone, Option.none_or, List.find?_cons_of_pos _ (by simp)]
    dsimp only
    rw [scanQuote_eq ⟨db.next, goTrim text, goTrim author, now⟩ hnow]
    simp [quoteOfD]
  · intro now₂ t₂ a₂ h3 h4
    refine ⟨?_, by omega⟩
    rw [hdb2]
    simp [QuoteStore.Add, h3, h4]

theorem C6_add_contract_witness :
    (QuoteStore.Add dbHello (str "2024-01-05 10:00:00") (str " hi there ") (str "bob")).1 =
      .ok 2 := by
  have h := C6_add_contract dbHello (str "2024-01-05 10:00:00") (str " hi there ")
    (str "bob") (by decide) (by decide)
  exact (h.2.2 (by decide) (by decide)).1

/-! ### Field updates (claim C7) -/

/-- C7: `UpdateText` (resp. `UpdateAuthor`) trims the new value, fails with
the validation error when it is empty after trimming, fails with the
not-found error when no live quote has the id, and otherwise mutates
exactly the text (resp. author) field of the rows carrying that id,
leaving id, `created_at`, the other field, and every other row untouched
(the record update in the conclusion fixes all remaining fields). -/
theorem C7_update_frame (db : DB) (id : Int) (v : List Char) :
    ((goTrim v = [] → QuoteStore.UpdateText db id v = (.error .emptyText, db)) ∧
     ((∀ row ∈ db.rows, row.id ≠ id) → goTrim v ≠ [] →
       QuoteStore.UpdateText db id v = (.error (.notFoundId id), db)) ∧
     ((∃ row ∈ db.rows, row.id = id) → goTrim v ≠ [] →
       (QuoteStore.UpdateText db id v).1 = .ok () ∧
       (QuoteStore.UpdateText db id v).2.next = db.next ∧
       (QuoteStore.UpdateText db id v).2.rows.length = db.rows.length ∧
       ∀ i, i < db.rows.length →
         (QuoteStore.UpdateText db id v).2.rows.getD i ⟨0, [], [], []⟩ =
           (if (db.rows.getD i ⟨0, [], [], []⟩).id = id
            then { db.rows.getD i ⟨0, [], [], []⟩ with text := goTrim v }
            else db.rows.getD i ⟨0, [], [], []⟩))) ∧
    ((goTrim v = [] → QuoteStore.UpdateAuthor db id v = (.error .emptyAuthor, db)) ∧
     ((∀ row ∈ db.rows, row.id ≠ id) → goTrim v ≠ [] →
       QuoteStore.UpdateAuthor db id v = (.error (.notFoundId id), db)) ∧
     ((∃ row ∈ db.rows, row.id = id) → goTrim v ≠ [] →
       (QuoteStore.UpdateAuthor db id v).1 = .ok () ∧
       (QuoteStore.UpdateAuthor db id v).2.next = db.next ∧
       (QuoteStore.UpdateAuthor db id v).2.rows.length = db.rows.length ∧
       ∀ i, i < db.rows.length →
         (QuoteStore.UpdateAuthor db id v).2.rows.getD i ⟨0, [], [], []⟩ =
           (if (db.rows.getD i ⟨0, [], [], []⟩).id = id
            then { db.rows.getD i ⟨0, [], [], []⟩ with author := goTrim v }
            else db.rows.getD i ⟨0, [], [], []⟩))) := by
  constructor
  · refine ⟨fun h => by simp [QuoteStore.UpdateText, h], ?_, ?_⟩
    · intro hno hne
      have hcount : db.rows.countP (fun row => row.id == id) = 0 :=
        List.countP_eq_zero.mpr fun row hr => by simp [hno row hr]
      have hrows : db.rows.map
          (fun row => if row.id = id then { row with text := goTrim v } else row) = db.rows := by
        have hcg : ∀ row ∈ db.rows,
            (if row.id = id then { row with text := goTrim v } else row) = row :=
          fun row hr => if_neg (hno row hr)
        rw [List.map_congr_left hcg, List.map_id']
      simp [QuoteStore.UpdateText, hne, hcount, hrows]
    · intro hex hne
      have hcount : db.rows.countP (fun row => row.id == id) ≠ 0 := by
        obtain ⟨row, hr, hid⟩ := hex
        have h0 : 0 < db.rows.countP (fun row => row.id == id) :=
          List.countP_pos_iff.mpr ⟨row, hr, beq_iff_eq.mpr hid⟩
        omega
      have hrw : (QuoteStore.UpdateText db id v).2.rows = db.rows.map
          (fun row => if row.id == id then { row with text := goTrim v } else row) := by
        simp only [QuoteStore.UpdateText, if_neg hne, if_neg hcount]
      refine ⟨by simp [QuoteStore.UpdateText, hne, hcount],
        by simp [QuoteStore.UpdateText, hne, hcount],
        by rw [hrw, List.length_map], ?_⟩
      intro i hi
      have hi' : i < (db.rows.map
          (fun row => if row.id == id then { row with text := goTrim v } else row)).length := by
        rw [List.length_map]; exact hi
      rw [hrw, List.getD_eq_getElem _ _ hi', List.getD_eq_getElem _ _ hi, List.getElem_map]
      by_cases hid : db.rows[i].id = id
      · simp [hid]
      · simp [hid]
  · refine ⟨fun h => by simp [QuoteStore.UpdateAuthor, h], ?_, ?_⟩
    · intro hno hne
      have hcount : db.rows.countP (fun row => row.id == id) = 0 :=
        List.countP_eq_zero.mpr fun row hr => by simp [hno row hr]
      have hrows : db.rows.map
          (fun row => if row.id = id then { row with author := goTrim v } else row) = db.rows := by
        have hcg : ∀ row ∈ db.rows,
            (if row.id = id then { row with author := goTrim v } else row) = row :=
          fun row hr => if_neg (hno row hr)
        rw [List.map_congr_left hcg, List.map_id']
      simp [QuoteStore.UpdateAuthor, hne, hcount, hrows]
    · intro hex hne
      have hcount : db.rows.countP (fun row => row.id == id) ≠ 0 := by
        obtain ⟨row, hr, hid⟩ := hex
        have h0 : 0 < db.rows.countP (fun row => row.id == id) :=
          List.countP_pos_iff.mpr ⟨row, hr, beq_iff_eq.mpr hid⟩
        omega
      have hrw : (QuoteStore.UpdateAuthor db id v).2.rows = db.rows.map
          (fun row => if row.id == id then { row with author := goTrim v } else row) := by
        simp only [QuoteStore.UpdateAuthor, if_neg hne, if_neg hcount]
      refine ⟨by simp [QuoteStore.UpdateAuthor, hne, hcount],
        by simp [QuoteStore.UpdateAuthor, hne, hcount],
        by rw [hrw, List.length_map], ?_⟩
      intro i hi
      have hi' : i < (db.rows.map
          (fun row => if row.id == id then { row with author := goTrim v } else row)).length := by
        rw [List.length_map]; exact hi
      rw [hrw, List.getD_eq_getElem _ _ hi', List.getD_eq_getElem _ _ hi, List.getElem_map]
      by_cases hid : db.rows[i].id = id
      · simp [hid]
      · simp [hid]

theorem C7_update_frame_witness :
    QuoteStore.UpdateText dbHello 5 (str "new text") =
      (.error (.notFoundId 5), dbHello) := by
  have h := C7_update_frame dbHello 5 (str "new text")
  exact h.1.2.1 (by decide) (by decide)

/-! ### Delete (claim C8) -/

/-- C8: `Delete(id)` followed by `GetByID(id)` always yields `NotFound`
(`ErrNoQuotes`); `Delete` of an id with no live quote fails with the
not-found error and performs no mutation; and `Delete` of a live id
removes exactly the rows carrying that id, leaving all other quotes
intact. -/
theorem C8_delete_contract (db : DB) (id : Int) :
    (QuoteStore.GetByID (QuoteStore.Delete db id).2 id = .error .noQuotes) ∧
    ((∀ row ∈ db.rows, row.id ≠ id) →
      QuoteStore.Delete db id = (.error (.notFoundId id), db)) ∧
    ((∃ row ∈ db.rows, row.id = id) →
      (QuoteStore.Delete db id).1 = .ok () ∧
      (QuoteStore.Delete db id).2.rows =
        db.rows.filter (fun row => !(row.id == id)) ∧
      (QuoteStore.Delete db id).2.next = db.next ∧
      (∀ row ∈ db.rows, row.id ≠ id → row ∈ (QuoteStore.Delete db id).2.rows) ∧
      (∀ row ∈ (QuoteStore.Delete db id).2.rows, row ∈ db.rows ∧ row.id ≠ id)) := by
  have h2 : (QuoteStore.Delete db id).2 =
      ⟨db.rows.filter (fun row => !(row.id == id)), db.next⟩ := by
    unfold QuoteStore.Delete
    dsimp only
    split
    · rfl
    · rfl
  refine ⟨?_, ?_, ?_⟩
  · rw [h2]
    unfold QuoteStore.GetByID
    have hfind : (db.rows.filter fun row => !(row.id == id)).find?
        (fun row => row.id == id) = none :=
      List.find?_eq_none.mpr fun x hx => by
        have hpx := List.of_mem_filter hx
        simp only [Bool.not_eq_true'] at hpx
        simp [hpx]
    rw [hfind]
  · intro hno
    have hself : db.rows.filter (fun row => !(row.id == id)) = db.rows :=
      List.filter_eq_self.mpr fun row hr => by simp [hno row hr]
    unfold QuoteStore.Delete
    dsimp only
    rw [hself, Nat.sub_self, if_pos rfl]
  · intro hex
    obtain ⟨row, hr, hid⟩ := hex
    have hlt : (db.rows.filter fun row => !(row.id == id)).length < db.rows.length :=
      List.length_filter_lt_length_iff_exists.mpr ⟨row, hr, by simp [hid]⟩
    have h1 : (QuoteStore.Delete db id).1 = .ok () := by
      unfold QuoteStore.Delete
      dsimp only
      rw [if_neg (by omega)]
    refine ⟨h1, by rw [h2], by rw [h2], ?_, ?_⟩
    · intro r hrm hrne
      rw [h2]
      exact List.mem_filter.mpr ⟨hrm, by simp [hrne]⟩
    · intro r hrm
      rw [h2] at hrm
      have := List.mem_filter.mp hrm
      refine ⟨this.1, ?_⟩
      have := this.2
      simp only [Bool.not_eq_true', beq_eq_false_iff_ne, ne_eq] at this
      exact this

theorem C8_delete_contract_witness :
    QuoteStore.GetByID (QuoteStore.Delete dbHello 1).2 1 = .error .noQuotes := by
  have h := C8_delete_contract dbHello 1
  exact h.1

/-! ### Lemmas about tokenization and trimming (for the dispatcher) -/

theorem goFieldsAux_ne_nil : ∀ (s acc : List Char), acc ≠ [] → goFieldsAux s acc ≠ [] := by
  intro s
  induction s with
  | nil =>
    intro acc h
    simp [goFieldsAux, List.isEmpty_iff, h]
  | cons d ds ih =>
    intro acc h
    rw [goFieldsAux]
    by_cases hsp : goIsSpace d
    · rw [if_pos hsp, if_neg (by simp [List.isEmpty_iff, h])]
      exact List.cons_ne_nil _ _
    · rw [if_neg hsp]
      exact ih (d :: acc) (List.cons_ne_nil _ _)

theorem goFieldsAux_tokens : ∀ (s acc : List Char), (∀ c ∈ acc, goIsSpace c = false) →
    ∀ t ∈ goFieldsAux s acc, t ≠ [] ∧ ∀ c ∈ t, goIsSpace c = false := by
  intro s
  induction s with
  | nil =>
    intro acc hacc t ht
    by_cases h : acc.isEmpty
    · rw [goFieldsAux, if_pos h] at ht
      cases ht
    · rw [goFieldsAux, if_neg h] at ht
      rcases List.mem_singleton.mp ht with rfl
      refine ⟨by simpa [List.isEmpty_iff] using h, ?_⟩
      intro c hc
      exact hacc c (List.mem_reverse.mp hc)
  | cons d ds ih =>
    intro acc hacc t ht
    rw [goFieldsAux] at ht
    by_cases hsp : goIsSpace d
    · rw [if_pos hsp] at ht
      by_cases hac : acc.isEmpty
      · rw [if_pos hac] at ht
        exact ih [] (by simp) t ht
      · rw [if_neg hac] at ht
        rcases List.mem_cons.mp ht with h | h
        · subst h
          refine ⟨by simpa [List.isEmpty_iff] using hac, ?_⟩
          intro c hc
          exact hacc c (List.mem_reverse.mp hc)
        · exact ih [] (by simp) t h
    · rw [if_neg hsp] at ht
      refine ih (d :: acc) ?_ t ht
      intro c hc
      rcases List.mem_cons.mp hc with rfl | hc
      · exact eq_false_of_ne_true hsp
      · exact hacc c hc

theorem goFields_tokens (m : List Char) :
    ∀ t ∈ goFields m, t ≠ [] ∧ ∀ c ∈ t, goIsSpace c = false :=
  goFieldsAux_tokens m [] (by simp)

theorem joinSp_cons (t : List Char) (ts : List (List Char)) :
    joinSp (t :: ts) = t ++ (if ts.isEmpty then [] else ' ' :: joinSp ts) := by
  cases ts <;> simp [joinSp]

theorem joinSp_last_nonspace : ∀ ts : List (List Char), ts ≠ [] →
    (∀ t ∈ ts, t ≠ [] ∧ ∀ c ∈ t, goIsSpace c = false) →
    ∃ l c, joinSp ts = l ++ [c] ∧ goIsSpace c = false := by
  intro ts
  induction ts with
  | nil => intro h; cases h rfl
  | cons t ts' ih =>
    intro _ hts
    cases ts' with
    | nil =>
      have ht := hts t (List.mem_cons_self t [])
      rcases (List.eq_nil_or_concat' t).resolve_left ht.1 with ⟨l, c, hc⟩
      exact ⟨l, c, by simp [joinSp, hc], ht.2 c (by simp [hc])⟩
    | cons t2 ts'' =>
      obtain ⟨l, c, heq, hns⟩ :=
        ih (List.cons_ne_nil _ _) fun x hx => hts x (List.mem_cons_of_mem _ hx)
      refine ⟨t ++ ' ' :: l, c, ?_, hns⟩
      rw [joinSp_cons, if_neg (by simp)]
      simp [heq]

theorem goTrim_joinSp (ts : List (List Char)) (hne : ts ≠ [])
    (hts : ∀ t ∈ ts, t ≠ [] ∧ ∀ c ∈ t, goIsSpace c = false) :
    goTrim (joinSp ts) = joinSp ts := by
  obtain ⟨l, c, heq, hns⟩ := joinSp_last_nonspace ts hne hts
  cases ts with
  | nil => cases hne rfl
  | cons t ts' =>
    have ht := hts t (List.mem_cons_self t ts')
    obtain ⟨c0, t', rfl⟩ : ∃ c0 t', t = c0 :: t' := by
      cases t with
      | nil => exact absurd rfl ht.1
      | cons a b => exact ⟨a, b, rfl⟩
    have hns0 : goIsSpace c0 = false := ht.2 c0 (List.mem_cons_self _ _)
    have hj : ∃ rest, joinSp ((c0 :: t') :: ts') = c0 :: rest := by
      rw [joinSp_cons]
      exact ⟨t' ++ _, rfl⟩
    obtain ⟨rest, hjr⟩ := hj
    have h1 : (joinSp ((c0 :: t') :: ts')).dropWhile goIsSpace = joinSp ((c0 :: t') :: ts') := by
      rw [hjr, List.dropWhile_cons, if_neg (by simp [hns0])]
    unfold goTrim
    rw [h1, heq]
    simp [List.reverse_append, List.dropWhile_cons, hns]

theorem goTrim_idem (l : List Char) : goTrim (goTrim l) = goTrim l := by
  have hgt : ∀ m : List Char, goTrim m = List.rdropWhile goIsSpace (m.dropWhile goIsSpace) :=
    fun m => rfl
  rw [hgt, hgt]
  have hhd : ∀ (m : List Char) (y : Char) (ys : List Char),
      m.dropWhile goIsSpace = y :: ys → goIsSpace y = false := by
    intro m
    induction m with
    | nil => intro y ys h; cases h
    | cons a as ihm =>
      intro y ys h
      rw [List.dropWhile_cons] at h
      by_cases ha : goIsSpace a
      · exact ihm y ys (by simpa [ha] using h)
      · rw [if_neg (by simp [ha])] at h
        cases h
        exact eq_false_of_ne_true ha
  have hX : (List.rdropWhile goIsSpace (l.dropWhile goIsSpace)).dropWhile goIsSpace =
      List.rdropWhile goIsSpace (l.dropWhile goIsSpace) := by
    rcases hXc : List.rdropWhile goIsSpace (l.dropWhile goIsSpace) with _ | ⟨x, X'⟩
    · rfl
    · have hpre : List.rdropWhile goIsSpace (l.dropWhile goIsSpace) <+: l.dropWhile goIsSpace :=
        List.rdropWhile_prefix _ _
      rw [hXc] at hpre
      obtain ⟨t, ht⟩ := hpre
      have hx : goIsSpace x = false :=
        hhd l x (X' ++ t) (by rw [← ht, List.cons_append])
      rw [List.dropWhile_cons, hx]
      simp
  rw [hX, List.rdropWhile_idempotent]

/-! ### Privileged delete (claim C1) -/

/-- C1: for every dispatched `delete` command whose caller's privileged
flag is false, the dispatcher (the spec-modelled four-argument
`CommandHandler.Handle`, whose source file is missing from src/) replies
with the fixed refusal message, does not invoke the store's `Delete` (the
state is returned unchanged, so the targeted quote remains retrievable
afterwards); with the flag true it dispatches exactly as the unguarded
handler, which performs the delete. -/
theorem C1_delete_requires_privilege (db : DB) (now : List Char) (r : Nat)
    (message user : List Char) (hcmd : isDeleteCmd message = true) :
    (HandleMod db now r message user false = ([refusalMessage], db)) ∧
    (∀ id q, QuoteStore.GetByID db id = .ok q →
      QuoteStore.GetByID (HandleMod db now r message user false).2 id = .ok q) ∧
    (HandleMod db now r message user true = Handle db now r message user) := by
  refine ⟨by simp [HandleMod, hcmd], ?_, by simp [HandleMod, hcmd]⟩
  intro id q h
  have h0 : HandleMod db now r message user false = ([refusalMessage], db) := by
    simp [HandleMod, hcmd]
  rw [h0]
  exact h

theorem C1_delete_requires_privilege_witness :
    HandleMod dbHello (str "2024-01-05 10:00:00") 0 (str "!quote delete 1")
        (str "mallory") false = ([refusalMessage], dbHello) ∧
    QuoteStore.GetByID (HandleMod dbHello (str "2024-01-05 10:00:00") 0
        (str "!quote delete 1") (str "mallory") false).2 1 =
      .ok ⟨1, str "hello world", str "alice", ⟨2024, 1, 2, 3, 4, 5, 0, none⟩⟩ := by
  have h := C1_delete_requires_privilege dbHello (str "2024-01-05 10:00:00") 0
    (str "!quote delete 1") (str "mallory") (by decide)
  exact ⟨h.1, h.2.1 1 _ (by decide)⟩

/-! ### The list reply (claim C9) -/

/-- C9: every dispatched `list` command on a non-empty (well-formed,
parseable) collection produces a single reply line holding at most the
first five quotes in ascending-id order, joined with the `" | "`
separator. -/
theorem C9_list_reply (db : DB) (now : List Char) (r : Nat)
    (message user tok sub : List Char) (args : List (List Char))
    (hs : Sorted db.rows) (hp : AllParse db.rows) (hne : db.rows ≠ [])
    (hpre : startsWith (str "!quote") message = true)
    (hf : goFields message = tok :: sub :: args)
    (hsub : lowerStr sub = str "list") :
    Handle db now r message user =
      ([joinSep (str " | ") (((db.rows.map quoteOfD).take 5).map formatQuote)], db) ∧
    ((db.rows.map quoteOfD).take 5).length ≤ 5 ∧
    List.Pairwise (fun a b => a.id < b.id) ((db.rows.map quoteOfD).take 5) := by
  have hlist : QuoteStore.ListAll db = .ok (db.rows.map quoteOfD) := by
    unfold QuoteStore.ListAll
    rw [sortById_sorted hs, scanAll_allparse _ _ hp]
    dsimp only
    rw [if_neg (by simp only [List.map_eq_nil_iff]; exact hne)]
  refine ⟨?_, List.length_take_le _ _, ?_⟩
  · unfold Handle
    rw [hpre, hf]
    dsimp only
    rw [hsub]
    rw [if_neg (by decide), if_neg (by decide), if_neg (by decide), if_neg (by decide),
        if_pos rfl, hlist, if_neg (by decide)]
  · exact List.Pairwise.sublist (List.take_sublist 5 _)
      (hs.map quoteOfD fun a b hab => by simpa [quoteOfD] using hab)

theorem C9_list_reply_witness :
    Handle dbThree (str "2024-01-05 10:00:00") 0 (str "!quote list") (str "u") =
      ([joinSep (str " | ") (((dbThree.rows.map quoteOfD).take 5).map formatQuote)],
        dbThree) :=
  (C9_list_reply dbThree (str "2024-01-05 10:00:00") 0 (str "!quote list") (str "u")
    (str "!quote") (str "list") [] (by decide) (by decide) (by decide) (by decide)
    (by decide) (by decide)).1

/-! ### Add-command argument parsing (claim C5) -/

/-- C5: for every dispatched `add` command, when the joined argument
string contains a pipe the dispatcher sends the store the trimmed portion
after the first pipe as the quote text and, as the author, the trimmed
portion before the first pipe when that is non-empty after trimming and
the caller's display name otherwise; with no pipe the whole joined string
is the text and the author is the caller's display name
(`addReply db now text author` is the dispatcher's continuation once the
store receives `(text, author)`). -/
theorem C5_add_pipe_author (db : DB) (now : List Char) (r : Nat)
    (message user tok sub : List Char) (args : List (List Char))
    (hpre : startsWith (str "!quote") message = true)
    (hf : goFields message = tok :: sub :: args)
    (hsub : lowerStr sub = str "add")
    (hargs : args ≠ []) :
    (splitFirstPipe (joinSp args) = none →
      Handle db now r message user = addReply db now (joinSp args) user) ∧
    (∀ before after, splitFirstPipe (joinSp args) = some (before, after) →
      Handle db now r message user =
        addReply db now (goTrim after)
          (if goTrim before = [] then user else goTrim before)) := by
  have htrim : goTrim (joinSp args) = joinSp args :=
    goTrim_joinSp args hargs fun t ht =>
      goFields_tokens message t
        (by rw [hf]; exact List.mem_cons_of_mem _ (List.mem_cons_of_mem _ ht))
  constructor
  · intro hnone
    unfold Handle
    rw [hpre, hf]
    dsimp only
    rw [hsub, if_neg (by decide), if_pos rfl]
    rcases args with _ | ⟨a, args'⟩
    · exact absurd rfl hargs
    · dsimp only
      rw [hnone]
      dsimp only
      rw [htrim]
      rfl
  · intro before after hsome
    unfold Handle
    rw [hpre, hf]
    dsimp only
    rw [hsub, if_neg (by decide), if_pos rfl]
    rcases args with _ | ⟨a, args'⟩
    · exact absurd rfl hargs
    · dsimp only
      rw [hsome]
      dsimp only
      rw [goTrim_idem]
      rfl

theorem C5_add_pipe_author_witness :
    Handle dbHello (str "2024-01-05 10:00:00") 0 (str "!quote add bob | second one")
        (str "carl") =
      addReply dbHello (str "2024-01-05 10:00:00") (goTrim (str " second one"))
        (if goTrim (str "bob ") = [] then str "carl" else goTrim (str "bob ")) :=
  (C5_add_pipe_author dbHello (str "2024-01-05 10:00:00") 0
    (str "!quote add bob | second one") (str "carl") (str "!quote") (str "add")
    [str "bob", str "|", str "second", str "one"] (by decide) (by decide) (by decide)
    (by decide)).2 (str "bob ") (str " second one") (by decide)

/-! ### Prefix dispatch (claim C10) -/

/-- C10: the dispatcher's prefix test is a plain string-prefix check, so
any message beginning with the characters `!quote` — including one-token
messages such as `!quoteabc` — is treated as a command (`!quoteabc`
behaves exactly as the bare `!quote` random-quote request), every message
passing the prefix test produces output, and only messages not beginning
with those characters produce no output. -/
theorem C10_prefix_dispatch (db : DB) (now : List Char) (r : Nat) (user : List Char) :
    (∀ message, startsWith (str "!quote") message = false →
      Handle db now r message user = ([], db)) ∧
    (Handle db now r (str "!quoteabc") user = Handle db now r (str "!quote") user) ∧
    (∀ message, startsWith (str "!quote") message = true →
      (Handle db now r message user).1 ≠ []) := by
  refine ⟨?_, ?_, ?_⟩
  · intro m h
    unfold Handle
    rw [h]
    rfl
  · rfl
  · intro m hpre
    cases m with
    | nil => exact absurd hpre (by decide)
    | cons c cs =>
      have hcb : c = '!' := by
        have hthis := hpre
        rw [show (str "!quote") = '!' :: str "quote" from rfl] at hthis
        simp only [startsWith, Bool.and_eq_true, decide_eq_true_eq] at hthis
        exact hthis.1.symm
      subst hcb
      have hnn : goFields ('!' :: cs) ≠ [] := by
        rw [goFields, goFieldsAux, if_neg (by decide)]
        exact goFieldsAux_ne_nil cs ['!'] (List.cons_ne_nil _ _)
      rcases hgf : goFields ('!' :: cs) with _ | ⟨tok, rest⟩
      · exact absurd hgf hnn
      · unfold Handle
        rw [hpre, hgf]
        cases rest with
        | nil =>
          dsimp only
          cases hR : QuoteStore.Random db db r with
          | error e => cases e <;> simp [hR]
          | ok q => simp [hR]
        | cons sub rest' =>
          dsimp only
          by_cases h1 : lowerStr sub = str "help"
          · simp [h1]
          · rw [if_neg h1]
            by_cases h2 : lowerStr sub = str "add"
            · rw [if_pos h2]
              cases rest' with
              | nil => simp
              | cons a as =>
                dsimp only
                cases hsp : splitFirstPipe (joinSp (a :: as)) with
                | none =>
                  dsimp only
                  rcases hAdd : QuoteStore.Add db now (goTrim (joinSp (a :: as))) user
                    with ⟨res, db2⟩
                  cases res <;> simp
                | some pr =>
                  obtain ⟨before, after⟩ := pr
                  dsimp only
                  rcases hAdd : QuoteStore.Add db now (goTrim (goTrim after))
                      (if goTrim before = [] then user else goTrim before) with ⟨res, db2⟩
                  cases res <;> simp
            · rw [if_neg h2]
              by_cases h3 : lowerStr sub = str "search"
              · rw [if_pos h3]
                cases rest' with
                | nil => simp
                | cons a as =>
                  dsimp only
                  cases hS : QuoteStore.Search db (joinSp (a :: as)) with
                  | error e => cases e <;> simp [hS]
                  | ok qs =>
                    cases qs with
                    | nil => exact absurd rfl (Search_ok_ne_nil hS)
                    | cons q qs' => simp [hS]
              · rw [if_neg h3]
                by_cases h4 : lowerStr sub = str "get"
                · rw [if_pos h4]
                  cases rest' with
                  | nil => simp
                  | cons a as =>
                    dsimp only
                    cases hid : goAtoi a with
                    | none => simp [hid]
                    | some id =>
                      cases hG : QuoteStore.GetByID db id with
                      | error e => cases e <;> simp [hid, hG]
                      | ok q => simp [hid, hG]
                · rw [if_neg h4]
                  by_cases h5 : lowerStr sub = str "list"
                  · rw [if_pos h5]
                    cases hL : QuoteStore.ListAll db with
                    | error e => cases e <;> simp [hL]
                    | ok qs => simp [hL]
                  · rw [if_neg h5]
                    by_cases h6 : lowerStr sub = str "latest"
                    · rw [if_pos h6]
                      cases hT : QuoteStore.Latest db with
                      | error e => cases e <;> simp [hT]
                      | ok q => simp [hT]
                    · rw [if_neg h6]
                      by_cases h7 : lowerStr sub = str "count"
                      · rw [if_pos h7]
                        by_cases hc0 : QuoteStore.Count db = 0
                        · simp [hc0]
                        · simp [hc0]
                      · rw [if_neg h7]
                        by_cases h8 : lowerStr sub = str "delete"
                        · rw [if_pos h8]
                          cases rest' with
                          | nil => simp
                          | cons a as =>
                            dsimp only
                            cases hid : goAtoi a with
                            | none => simp [hid]
                            | some id =>
                              rcases hD : QuoteStore.Delete db id with ⟨res, db2⟩
                              cases res <;> simp [hD]
                        · rw [if_neg h8]
                          simp

theorem C10_prefix_dispatch_witness :
    Handle dbHello (str "x") 0 (str "hello there") (str "u") = ([], dbHello) ∧
    (Handle dbHello (str "x") 0 (str "!quoteabc") (str "u")).1 ≠ [] := by
  have h := C10_prefix_dispatch dbHello (str "x") 0 (str "u")
  exact ⟨h.1 (str "hello there") (by decide), h.2.2 (str "!quoteabc") (by decide)⟩

theorem C4_skip_unparsable_witness :
    searchQuotes dbBadTs (str "alpha") =
      .ok [⟨2, str "alpha two", str "ben", ⟨2024, 1, 2, 3, 4, 5, 0, none⟩⟩] := by
  have h := C4_skip_unparsable dbBadTs (str "alpha")
  rw [h.1]
  decide
